import Mathlib

/-!
Verification of the MediaWiki scraper / AnythingLLM uploader scripts.

The two Python scripts (`scripts/scrape_mediawiki.py` and
`scripts/upload_to_anythingllm.py`) are shallowly embedded below: titles,
file contents and filenames are `List Char`; the per-item loops are
structural recursions over the list of items, with the network outcomes
(page text fetch, upload response, embedding call) supplied as data of the
item; an uncaught Python exception is an `Except.error`.
-/

namespace MediaWikiAnythingLLM

/-! ## Filename sanitizer (`scrape_mediawiki.py`, `sanitize_filename`) -/

/-- The nine characters of the character class in
`re.sub(r'[<>:"/\\|?*]', '_', title)`. -/
def badChars : List Char := ['<', '>', ':', '"', '/', '\\', '|', '?', '*']

/-- `re.sub(r'[<>:"/\\|?*]', '_', title)`: every occurrence of one of the
nine characters becomes an underscore. -/
def replaceBad (s : List Char) : List Char :=
  s.map (fun c => if badChars.contains c then '_' else c)

/-- Python's `\s` character class (Unicode whitespace, as `re.sub(r'\s+', ...)`
sees it in Python 3's default Unicode mode). -/
def pyIsSpace (c : Char) : Bool :=
  c == ' ' || c == '\t' || c == '\n' || c == '\r' || c == '\x0b' || c == '\x0c' ||
  c == '\x1c' || c == '\x1d' || c == '\x1e' || c == '\x1f' ||
  c == '\u0085' || c == ' ' || c.val == 0x1680 ||
  (0x2000 ≤ c.val && c.val ≤ 0x200a) ||
  c.val == 0x2028 || c.val == 0x2029 || c.val == 0x202f ||
  c.val == 0x205f || c.val == 0x3000

/-- Helper for `re.sub(r'\s+', '_', s)`: the flag records whether the
previous character was part of a whitespace run already replaced. -/
def collapseWsAux : Bool → List Char → List Char
  | _, [] => []
  | inRun, c :: cs =>
    if pyIsSpace c then
      (if inRun then collapseWsAux true cs else '_' :: collapseWsAux true cs)
    else
      c :: collapseWsAux false cs

/-- `re.sub(r'\s+', '_', s)`: each maximal run of whitespace becomes a
single underscore. -/
def collapseWs (s : List Char) : List Char := collapseWsAux false s

/-- The characters removed at both ends by `safe_name.strip('._')`. -/
def stripSet (c : Char) : Bool := c == '.' || c == '_'

/-- Python `s.strip('._')`: drop characters of the set from the front and
from the back. -/
def stripChars (s : List Char) : List Char :=
  ((s.dropWhile stripSet).reverse.dropWhile stripSet).reverse

/-- `sanitize_filename` of `scrape_mediawiki.py`: replace the nine unsafe
characters, collapse whitespace runs, strip `.` and `_` at both ends, and
truncate to 200 characters when longer. -/
def sanitize_filename (title : List Char) : List Char :=
  let s1 := replaceBad title
  let s2 := collapseWs s1
  let s3 := stripChars s2
  if s3.length > 200 then s3.take 200 else s3

/-- `edgeOK o` says the optional boundary character `o` is not one of the
stripped characters `.` `_`. -/
def edgeOK : Option Char → Bool
  | none => true
  | some c => !stripSet c

end MediaWikiAnythingLLM

namespace MediaWikiAnythingLLM

/-! ## Content formatter and export loop (`scrape_mediawiki.py`) -/

/-- A page handle as the export loop sees it.  `text = none` models
`page.text()` raising (the exception `get_page_content` catches and turns
into `None`); `touched = none` models a page object without the `touched`
attribute. -/
structure Page where
  name : List Char
  text : Option (List Char)
  touched : Option (List Char)

/-- The f-string template of `get_page_content`: heading, raw text, and the
provenance footer with the `'Unknown'` fallback for a missing `touched`. -/
def formatContent (name text : List Char) (touched : Option (List Char)) : List Char :=
  "# ".toList ++ name ++ "\n\n".toList ++ text ++
    "\n\n---\nSource: MediaWiki\nPage: ".toList ++ name ++
    "\nLast Modified: ".toList ++ touched.getD "Unknown".toList ++ "\n".toList

/-- `get_page_content`: `None` when fetching the text failed, otherwise the
formatted document. -/
def get_page_content (p : Page) : Option (List Char) :=
  match p.text with
  | none => none
  | some t => some (formatContent p.name t p.touched)

/-- The mutable state of the export loop: the two counters and the sequence
of file writes performed (filename, contents). -/
structure ExportState where
  exported : Nat
  error_count : Nat
  writes : List (List Char × List Char)

/-- Python truthiness of the `limit` argument (`if limit and ...`): `None`
and `0` are falsy. -/
def pyTruthyNat : Option Nat → Bool
  | none => false
  | some n => n != 0

/-- One iteration body of the `for i, page in enumerate(pages)` loop of
`scrape_mediawiki` (after the break check): fetch, then either count the
error or write the file and count the export. -/
def exportStep (s : ExportState) (p : Page) : ExportState :=
  match get_page_content p with
  | none => { s with error_count := s.error_count + 1 }
  | some c =>
    { s with
        exported := s.exported + 1,
        writes := s.writes ++ [(sanitize_filename p.name ++ ".txt".toList, c)] }

/-- The export loop of `scrape_mediawiki`, with the enumeration index `i`
and the Python break condition `if limit and i >= limit`. -/
def exportLoop (limit : Option Nat) : List Page → Nat → ExportState → ExportState
  | [], _, s => s
  | p :: ps, i, s =>
    if pyTruthyNat limit && decide (limit.getD 0 ≤ i) then s
    else exportLoop limit ps (i + 1) (exportStep s p)

/-- `scrape_mediawiki`'s per-page phase: run the export loop from the empty
state over the fetched page handles. -/
def scrape_mediawiki (limit : Option Nat) (pages : List Page) : ExportState :=
  exportLoop limit pages 0 ⟨0, 0, []⟩

/-- Pages processed by a run: every processed page is counted exactly once,
either as exported or as an error. -/
def processedCount (s : ExportState) : Nat := s.exported + s.error_count

/-- The number of page handles whose content fetch fails. -/
def failCount (pages : List Page) : Nat :=
  (pages.filter (fun p => p.text.isNone)).length

/-- A one-page list whose single page fetches successfully. -/
def pagesOne : List Page := [⟨"a".toList, some "x".toList, none⟩]

/-- A two-page list whose pages both fetch successfully. -/
def pagesTwo : List Page :=
  [⟨"a".toList, some "x".toList, none⟩, ⟨"b".toList, some "y".toList, none⟩]

end MediaWikiAnythingLLM

namespace MediaWikiAnythingLLM

/-! ## Uploader (`upload_to_anythingllm.py`) -/

/-- A direct child of the input directory as `Path.iterdir()` yields it: its
name and whether it is a regular file (`f.is_file()`); a subdirectory is an
entry with `isFile = false`, and its own contents are not entries at all. -/
structure DirEntry where
  name : List Char
  isFile : Bool
deriving DecidableEq

/-- Python `PurePath.suffix` of a file name: the part from the last dot on,
and the empty string when there is no dot, the only dot is the leading
character, or the dot is the final character. -/
def pySuffix (name : List Char) : List Char :=
  let pre := name.reverse.takeWhile (fun c => !(c == '.'))
  if 0 < pre.length ∧ pre.length + 1 < name.length then '.' :: pre.reverse
  else []

/-- Python `str.lower()` as applied to a suffix. -/
def pyLower (s : List Char) : List Char := s.map Char.toLower

/-- The allow-list `extensions` of `upload_documents`. -/
def extensions : List (List Char) :=
  [".txt".toList, ".md".toList, ".pdf".toList, ".docx".toList, ".doc".toList,
   ".html".toList, ".htm".toList]

/-- The candidate list of `upload_documents`:
`[f for f in docs_path.iterdir() if f.is_file() and f.suffix.lower() in extensions]`. -/
def candidateFiles (entries : List DirEntry) : List DirEntry :=
  entries.filter (fun f => f.isFile && extensions.contains (pyLower (pySuffix f.name)))

/-- The upload endpoint's JSON response as `upload_documents` inspects it:
`empty` is a falsy `result` (the empty dict `upload_document` returns when
the request raised, or an empty response object); `noDocsKey` a truthy
object without a `'documents'` key; `withDocs ls` a truthy object whose
`'documents'` value is a list of objects, each carrying (`some loc`) or
lacking (`none`) a `'location'` value. -/
inductive UploadResp where
  | empty
  | noDocsKey
  | withDocs (docs : List (Option (List Char)))

/-- `result.get('documents', [{}])`: the `'documents'` list, or the default
one-element list `[{}]` (an object with no `'location'`) when the key is
absent.  (On a falsy `result` the loop has already moved on.) -/
def getDocuments : UploadResp → List (Option (List Char))
  | .empty => [none]
  | .noDocsKey => [none]
  | .withDocs docs => docs

/-- Python truthiness of `result` (`if not result: continue`): only the
empty dict is falsy. -/
def respTruthy : UploadResp → Bool
  | .empty => false
  | .noDocsKey => true
  | .withDocs _ => true

/-- Python truthiness of `doc_location` (`if doc_location:`): `None` and
the empty string are falsy. -/
def pyTruthyStr : Option (List Char) → Bool
  | none => false
  | some s => !s.isEmpty

/-- One candidate file together with the service outcomes its iteration
will observe: the upload response, and whether the `update-embeddings`
call returns success. -/
structure UploadFile where
  name : List Char
  resp : UploadResp
  embedOk : Bool

/-- The counters of the upload loop, plus how many files the loop has
worked on (`processed`) and how many times it has slept (`sleeps`). -/
structure UploadState where
  processed : Nat
  uploaded : Nat
  embedded : Nat
  sleeps : Nat
deriving DecidableEq

/-- One iteration of the `for i, file_path in enumerate(files, 1)` loop.
`Except.error` is the uncaught `IndexError` of `result.get('documents',
[{}])[0]` when the documents list is empty: it aborts the whole loop.
Otherwise: skipped file on a falsy result (no sleep — `continue` jumps
over `time.sleep(0.5)`), or a counted upload, an embedding attempt when
the location is truthy, and the `time.sleep(0.5)` pause. -/
def uploadStep (s : UploadState) (f : UploadFile) : Except UploadState UploadState :=
  if respTruthy f.resp = false then
    .ok { s with processed := s.processed + 1 }
  else
    match (getDocuments f.resp).head? with
    | none =>
      .error { s with processed := s.processed + 1, uploaded := s.uploaded + 1 }
    | some locOpt =>
      if pyTruthyStr locOpt && f.embedOk then
        .ok { s with
                processed := s.processed + 1, uploaded := s.uploaded + 1,
                embedded := s.embedded + 1, sleeps := s.sleeps + 1 }
      else
        .ok { s with
                processed := s.processed + 1, uploaded := s.uploaded + 1,
                sleeps := s.sleeps + 1 }

/-- The upload loop: an `Except.error` of one iteration terminates the
whole run (the Python exception is not caught anywhere in the script). -/
def uploadLoop : List UploadFile → UploadState → Except UploadState UploadState
  | [], s => .ok s
  | f :: fs, s =>
    match uploadStep s f with
    | .error e => .error e
    | .ok s' => uploadLoop fs s'

/-- `upload_documents`' per-file phase, from zeroed counters. -/
def upload_documents (files : List UploadFile) : Except UploadState UploadState :=
  uploadLoop files ⟨0, 0, 0, 0⟩

/-- The state an outcome leaves behind: the final state of a completed run,
or the state at the moment of the uncaught exception. -/
def runOut : Except UploadState UploadState → UploadState
  | .ok s => s
  | .error s => s

/-- The loop's state after it has worked through the first `k` files. -/
def stateAt (files : List UploadFile) (k : Nat) : UploadState :=
  runOut (uploadLoop (files.take k) ⟨0, 0, 0, 0⟩)

/-- The claim that a completed run slept once per file it processed, i.e.
that the fixed pause follows every file whether its upload succeeded or
failed. -/
def pausesAfterEveryFile (files : List UploadFile) : Prop :=
  ∀ s, upload_documents files = .ok s → s.sleeps = s.processed

end MediaWikiAnythingLLM

namespace MediaWikiAnythingLLM

/-- Invariant tying the upload counters together: a file is counted as
embedded only in an iteration that also counted it as uploaded, and as
uploaded only in an iteration that processed it. -/
def counterInv (s : UploadState) : Prop :=
  s.embedded ≤ s.uploaded ∧ s.uploaded ≤ s.processed

end MediaWikiAnythingLLM

namespace MediaWikiAnythingLLM

lemma mem_replaceBad {c : Char} {s : List Char} (h : c ∈ replaceBad s) :
    c ∉ badChars := by
  rcases List.mem_map.mp h with ⟨a, _, rfl⟩
  by_cases hb : badChars.contains a = true
  · simp only [replaceBad, hb, if_pos]
    decide
  · simp only [Bool.not_eq_true] at hb
    simp only [hb, if_neg, Bool.false_eq_true, not_false_iff]
    simp_all

lemma mem_collapseWsAux {c : Char} :
    ∀ (b : Bool) (s : List Char), c ∈ collapseWsAux b s → c = '_' ∨ c ∈ s := by
  intro b s
  induction s generalizing b with
  | nil => intro h; simp [collapseWsAux] at h
  | cons a t ih =>
    intro h
    by_cases ha : pyIsSpace a = true
    · simp only [collapseWsAux, ha, if_pos] at h
      cases b with
      | true =>
        rcases ih true h with h' | h'
        · exact Or.inl h'
        · exact Or.inr (List.mem_cons_of_mem _ h')
      | false =>
        rcases List.mem_cons.mp h with rfl | h'
        · exact Or.inl rfl
        · rcases ih true h' with h'' | h''
          · exact Or.inl h''
          · exact Or.inr (List.mem_cons_of_mem _ h'')
    · simp only [collapseWsAux, ha, if_neg, Bool.false_eq_true] at h
      rcases List.mem_cons.mp h with rfl | h'
      · exact Or.inr (List.mem_cons_self _ _)
      · rcases ih false h' with h'' | h''
        · exact Or.inl h''
        · exact Or.inr (List.mem_cons_of_mem _ h'')

lemma mem_stripChars {c : Char} {s : List Char} (h : c ∈ stripChars s) :
    c ∈ s := by
  unfold stripChars at h
  rw [List.mem_reverse] at h
  have h1 := (List.dropWhile_sublist stripSet).subset h
  rw [List.mem_reverse] at h1
  exact (List.dropWhile_sublist stripSet).subset h1

lemma head?_dropWhile {p : Char → Bool} {c : Char} :
    ∀ {l : List Char}, (l.dropWhile p).head? = some c → p c = false := by
  intro l
  induction l with
  | nil => intro h; simp [List.dropWhile] at h
  | cons a t ih =>
    intro h
    by_cases ha : p a = true
    · rw [List.dropWhile_cons_of_pos ha] at h
      exact ih h
    · rw [List.dropWhile_cons_of_neg ha] at h
      simp only [List.head?_cons, Option.some.injEq] at h
      subst h
      simpa using ha

lemma getLast?_dropWhile_of_ne_nil {p : Char → Bool} :
    ∀ {l : List Char}, l.dropWhile p ≠ [] → (l.dropWhile p).getLast? = l.getLast? := by
  intro l
  induction l with
  | nil => intro h; simp [List.dropWhile] at h
  | cons a t ih =>
    intro h
    by_cases ha : p a = true
    · rw [List.dropWhile_cons_of_pos ha] at h ⊢
      have ht : t ≠ [] := by
        intro he; subst he; simp [List.dropWhile] at h
      rw [ih h]
      cases t with
      | nil => exact absurd rfl ht
      | cons b u => simp [List.getLast?_cons_cons]
    · rw [List.dropWhile_cons_of_neg ha]

lemma stripChars_head? {s : List Char} {c : Char}
    (h : (stripChars s).head? = some c) : stripSet c = false := by
  unfold stripChars at h
  rw [List.head?_reverse] at h
  have hne : (s.dropWhile stripSet).reverse.dropWhile stripSet ≠ [] := by
    intro he; rw [he] at h; simp at h
  rw [getLast?_dropWhile_of_ne_nil hne, List.getLast?_reverse] at h
  exact head?_dropWhile h

lemma stripChars_getLast? {s : List Char} {c : Char}
    (h : (stripChars s).getLast? = some c) : stripSet c = false := by
  unfold stripChars at h
  rw [List.getLast?_reverse] at h
  exact head?_dropWhile h

lemma head?_take_pos {l : List Char} {n : Nat} (hn : 0 < n) :
    (l.take n).head? = l.head? := by
  cases n with
  | zero => exact absurd hn (by simp)
  | succ m => cases l <;> simp

/-- C4: for every title, `sanitize_filename`'s output contains none of the
nine characters `< > : " / \ | ? *` and has at most 200 characters. -/
theorem sanitize_filename_safe (title : List Char) :
    (∀ c ∈ sanitize_filename title, c ∉ badChars) ∧
      (sanitize_filename title).length ≤ 200 := by
  constructor
  · intro c hc
    have hc' : c ∈ stripChars (collapseWs (replaceBad title)) := by
      unfold sanitize_filename at hc
      by_cases hl : (stripChars (collapseWs (replaceBad title))).length > 200
      · rw [if_pos hl] at hc
        exact (List.take_sublist _ _).subset hc
      · rwa [if_neg hl] at hc
    have hc2 : c ∈ collapseWs (replaceBad title) := mem_stripChars hc'
    rcases mem_collapseWsAux false _ hc2 with rfl | hc3
    · decide
    · exact mem_replaceBad hc3
  · unfold sanitize_filename
    by_cases hl : (stripChars (collapseWs (replaceBad title))).length > 200
    · rw [if_pos hl]
      rw [List.length_take]
      omega
    · rw [if_neg hl]
      omega

/-- C2 (counterexample): sanitizing `"Hello/World: Test?"` does not yield
`"Hello_World_Test"` — the `:` becomes `_` and the following space becomes a
second `_`. -/
theorem sanitize_example_ne :
    sanitize_filename "Hello/World: Test?".toList ≠ "Hello_World_Test".toList := by
  decide

/-- C2 (amended): sanitizing `"Hello/World: Test?"` yields
`"Hello_World__Test"` (with a double underscore between `World` and `Test`). -/
theorem sanitize_example_eq :
    sanitize_filename "Hello/World: Test?".toList = "Hello_World__Test".toList := by
  decide

set_option maxRecDepth 100000 in
/-- C3 (counterexample): on the 201-character title of 199 `a`s followed by
`/b`, the sanitizer's truncation step cuts right after the underscore that
replaced the `/`, so the output ends in `_`. -/
theorem sanitize_trailing_underscore :
    ¬ (edgeOK (sanitize_filename (List.replicate 199 'a' ++ ['/', 'b'])).head? = true ∧
       edgeOK (sanitize_filename (List.replicate 199 'a' ++ ['/', 'b'])).getLast? = true) := by
  decide

/-- C3 (amended): the sanitizer's output never starts with `_` or `.`; and
whenever the stripped name has at most 200 characters (so the final
truncation is the identity), it also never ends with `_` or `.` — truncation
of a longer name can reintroduce a trailing `_` or `.`. -/
theorem sanitize_filename_noEdge (title : List Char) :
    edgeOK (sanitize_filename title).head? = true ∧
      ((stripChars (collapseWs (replaceBad title))).length ≤ 200 →
        edgeOK (sanitize_filename title).getLast? = true) := by
  constructor
  · unfold sanitize_filename
    by_cases hl : (stripChars (collapseWs (replaceBad title))).length > 200
    · rw [if_pos hl]
      rw [head?_take_pos (by omega)]
      cases hh : (stripChars (collapseWs (replaceBad title))).head? with
      | none => rfl
      | some c =>
        have hcs := stripChars_head? hh
        simp [edgeOK, hcs]
    · rw [if_neg hl]
      cases hh : (stripChars (collapseWs (replaceBad title))).head? with
      | none => rfl
      | some c =>
        have hcs := stripChars_head? hh
        simp [edgeOK, hcs]
  · intro hle
    unfold sanitize_filename
    have hl : ¬ (stripChars (collapseWs (replaceBad title))).length > 200 := by omega
    rw [if_neg hl]
    cases hh : (stripChars (collapseWs (replaceBad title))).getLast? with
    | none => rfl
    | some c =>
      have hcs := stripChars_getLast? hh
      simp [edgeOK, hcs]

/-- C3 (witness): the amended theorem applied to the concrete title
`"Hello World"`, whose stripped name is short enough that no truncation
occurs. -/
theorem sanitize_filename_noEdge_witness :
    edgeOK (sanitize_filename "Hello World".toList).getLast? = true :=
  (sanitize_filename_noEdge "Hello World".toList).2 (by decide)

end MediaWikiAnythingLLM

namespace MediaWikiAnythingLLM

lemma processedCount_exportStep (s : ExportState) (p : Page) :
    processedCount (exportStep s p) = processedCount s + 1 := by
  unfold exportStep
  cases get_page_content p <;> simp [processedCount] <;> omega

lemma exportLoop_limit_processed (L : Nat) :
    ∀ (ps : List Page) (i : Nat) (s : ExportState), 0 < L → L ≤ i + ps.length → i ≤ L →
      processedCount (exportLoop (some L) ps i s) = processedCount s + (L - i) := by
  intro ps
  induction ps with
  | nil =>
    intro i s hL hlen hi
    simp only [List.length_nil, Nat.add_zero] at hlen
    have : L = i := Nat.le_antisymm hlen hi
    subst this
    simp [exportLoop]
  | cons p ps ih =>
    intro i s hL hlen hi
    unfold exportLoop
    have htr : pyTruthyNat (some L) = true := by
      simp [pyTruthyNat]; omega
    by_cases hLi : L ≤ i
    · have : L = i := Nat.le_antisymm hLi hi
      subst this
      simp [htr]
    · have hlt : i < L := Nat.lt_of_not_le hLi
      have hcond : (pyTruthyNat (some L) && decide ((some L).getD 0 ≤ i)) = false := by
        simp [htr, hLi]
      rw [hcond]
      simp only [Bool.false_eq_true, if_neg, not_false_iff]
      rw [ih (i + 1) (exportStep s p) hL (by simp at hlen ⊢; omega) hlt]
      rw [processedCount_exportStep]
      omega

/-- C5 (counterexample): with a configured limit of `0` and one page, the
export loop ignores the limit (Python's `if limit and i >= limit` is falsy
for `limit = 0`) and processes the page instead of stopping after zero
iterations. -/
theorem scrape_limit_zero_processes :
    processedCount (scrape_mediawiki (some 0) pagesOne) = 1 := by
  decide

/-- C5 (amended): for every page sequence and every configured limit `L`
with `1 ≤ L < N`, the export loop processes exactly `L` pages and then
stops; a limit of `0` (like `None`) is falsy in Python and disables the cap
instead. -/
theorem scrape_limit_stops (pages : List Page) (L : Nat)
    (h1 : 1 ≤ L) (h2 : L < pages.length) :
    processedCount (scrape_mediawiki (some L) pages) = L := by
  unfold scrape_mediawiki
  rw [exportLoop_limit_processed L pages 0 ⟨0, 0, []⟩ h1 (by omega) (by omega)]
  simp [processedCount]

/-- C5 (witness): the amended theorem at the concrete two-page list with
limit `1`. -/
theorem scrape_limit_stops_witness :
    processedCount (scrape_mediawiki (some 1) pagesTwo) = 1 :=
  scrape_limit_stops pagesTwo 1 (by decide) (by decide)

lemma exportLoop_none_counts :
    ∀ (ps : List Page) (i : Nat) (s : ExportState),
      (exportLoop none ps i s).error_count = s.error_count + failCount ps ∧
      (exportLoop none ps i s).writes.length =
        s.writes.length + (ps.length - failCount ps) := by
  intro ps
  induction ps with
  | nil => intro i s; simp [exportLoop, failCount]
  | cons p ps ih =>
    intro i s
    unfold exportLoop
    simp only [pyTruthyNat, Bool.false_and, Bool.false_eq_true, if_neg, not_false_iff]
    have hle := List.length_filter_le (fun p : Page => p.text.isNone) ps
    rcases ih (i + 1) (exportStep s p) with ⟨ihe, ihw⟩
    cases hp : p.text with
    | none =>
      have hstep : exportStep s p = { s with error_count := s.error_count + 1 } := by
        unfold exportStep get_page_content
        rw [hp]
      constructor
      · rw [ihe, hstep]
        simp [failCount, List.filter, hp]
        omega
      · rw [ihw, hstep]
        simp only [failCount, List.filter, hp, Option.isNone_none, List.length_cons]
        simp [failCount] at hle ⊢
    | some t =>
      have hstep : exportStep s p =
          { s with
              exported := s.exported + 1,
              writes := s.writes ++
                [(sanitize_filename p.name ++ ".txt".toList, formatContent p.name t p.touched)] } := by
        unfold exportStep get_page_content
        rw [hp]
      constructor
      · rw [ihe, hstep]
        simp [failCount, List.filter, hp]
      · rw [ihw, hstep]
        simp only [failCount, List.filter, hp, Option.isNone_some, List.length_cons,
          List.length_append, List.length_cons, List.length_nil]
        simp [failCount] at hle ⊢
        omega

/-- C6: over `N` page handles of which exactly `M` fail content fetch (and
nothing else fails — the model's write step always succeeds), the export
loop performs exactly `N − M` file writes and ends with the error counter
equal to `M`. -/
theorem scrape_counts (pages : List Page) :
    (scrape_mediawiki none pages).writes.length = pages.length - failCount pages ∧
    (scrape_mediawiki none pages).error_count = failCount pages := by
  unfold scrape_mediawiki
  rcases exportLoop_none_counts pages 0 ⟨0, 0, []⟩ with ⟨he, hw⟩
  exact ⟨by simpa using hw, by simpa using he⟩

/-- C8: when content fetch succeeds, `get_page_content` returns a document
that contains the title and the raw content verbatim, and contains the
literal `"Unknown"` when the last-modified marker is absent. -/
theorem get_page_content_verbatim (name text : List Char) (touched : Option (List Char)) :
    ∃ out, get_page_content ⟨name, some text, touched⟩ = some out ∧
      (∃ l r, out = l ++ name ++ r) ∧
      (∃ l r, out = l ++ text ++ r) ∧
      (touched = none → ∃ l r, out = l ++ "Unknown".toList ++ r) := by
  refine ⟨formatContent name text touched, rfl, ?_, ?_, ?_⟩
  · refine ⟨"# ".toList,
      "\n\n".toList ++ text ++ "\n\n---\nSource: MediaWiki\nPage: ".toList ++ name ++
        "\nLast Modified: ".toList ++ touched.getD "Unknown".toList ++ "\n".toList, ?_⟩
    simp [formatContent, List.append_assoc]
  · refine ⟨"# ".toList ++ name ++ "\n\n".toList,
      "\n\n---\nSource: MediaWiki\nPage: ".toList ++ name ++
        "\nLast Modified: ".toList ++ touched.getD "Unknown".toList ++ "\n".toList, ?_⟩
    simp [formatContent, List.append_assoc]
  · intro h
    subst h
    refine ⟨"# ".toList ++ name ++ "\n\n".toList ++ text ++
        "\n\n---\nSource: MediaWiki\nPage: ".toList ++ name ++
        "\nLast Modified: ".toList, "\n".toList, ?_⟩
    simp [formatContent, List.append_assoc, Option.getD]

end MediaWikiAnythingLLM

namespace MediaWikiAnythingLLM

/-- C7: the uploader's candidate set is exactly the regular files directly
inside the input directory whose extension, lowercased, is on the
allow-list; subdirectories' contents are not directory entries at all
(`iterdir` does not recurse), and entries that are not regular files or
have another extension are filtered out. -/
theorem candidateFiles_mem (entries : List DirEntry) (f : DirEntry) :
    f ∈ candidateFiles entries ↔
      f ∈ entries ∧ f.isFile = true ∧ pyLower (pySuffix f.name) ∈ extensions := by
  simp [candidateFiles, List.mem_filter, and_assoc]

/-- C1 (code bug): an upload response whose `'documents'` value is the
empty list makes `result.get('documents', [{}])[0]` raise an uncaught
`IndexError`, terminating the run at that file instead of proceeding:
here the second file is never reached (`processed = 1`). -/
theorem upload_malformed_response_crashes :
    upload_documents
      [⟨"a.txt".toList, .withDocs [], true⟩,
       ⟨"b.txt".toList, .withDocs [some "loc".toList], true⟩]
      = .error ⟨1, 1, 0, 0⟩ := rfl

/-- C9 (counterexample): with one file whose upload fails, the run
completes having processed one file but slept zero times — the `continue`
after a falsy upload result jumps over `time.sleep(0.5)`. -/
theorem upload_failed_upload_skips_pause :
    ¬ pausesAfterEveryFile [⟨"a.txt".toList, .empty, true⟩] := by
  intro h
  have hx := h ⟨1, 0, 0, 0⟩ rfl
  exact absurd hx (by decide)

lemma uploadStep_cases (s : UploadState) (f : UploadFile) :
    uploadStep s f = .ok { s with processed := s.processed + 1 } ∨
    uploadStep s f =
      .error { s with processed := s.processed + 1, uploaded := s.uploaded + 1 } ∨
    uploadStep s f =
      .ok { s with
              processed := s.processed + 1, uploaded := s.uploaded + 1,
              embedded := s.embedded + 1, sleeps := s.sleeps + 1 } ∨
    uploadStep s f =
      .ok { s with
              processed := s.processed + 1, uploaded := s.uploaded + 1,
              sleeps := s.sleeps + 1 } := by
  unfold uploadStep
  by_cases hr : respTruthy f.resp = false
  · rw [if_pos hr]
    left; rfl
  · rw [if_neg hr]
    cases hd : (getDocuments f.resp).head? with
    | none => right; left; rfl
    | some locOpt =>
      by_cases hb : (pyTruthyStr locOpt && f.embedOk) = true
      · right; right; left
        simp [hb]
      · right; right; right
        simp [hb]

lemma uploadLoop_sleeps_uploaded :
    ∀ (fs : List UploadFile) (s0 s : UploadState), s0.sleeps = s0.uploaded →
      uploadLoop fs s0 = .ok s → s.sleeps = s.uploaded := by
  intro fs
  induction fs with
  | nil =>
    intro s0 s h0 h
    simp only [uploadLoop, Except.ok.injEq] at h
    subst h
    exact h0
  | cons f fs ih =>
    intro s0 s h0 h
    rcases uploadStep_cases s0 f with hc | hc | hc | hc
    · simp only [uploadLoop, hc] at h
      exact ih _ s (by simpa using h0) h
    · simp only [uploadLoop, hc] at h
      exact absurd h (by simp)
    · simp only [uploadLoop, hc] at h
      exact ih _ s (by simp [h0]) h
    · simp only [uploadLoop, hc] at h
      exact ih _ s (by simp [h0]) h

/-- C9 (amended): in every completed run of the upload loop, the fixed
pause happens exactly after each file whose upload succeeded; a file whose
upload fails is skipped by `continue` without pausing. -/
theorem upload_pause_iff_uploaded (files : List UploadFile) (s : UploadState)
    (h : upload_documents files = .ok s) : s.sleeps = s.uploaded :=
  uploadLoop_sleeps_uploaded files ⟨0, 0, 0, 0⟩ s rfl h

/-- C9 (witness): the amended theorem on a concrete completed two-file run
(both uploads succeed, both embeddings succeed). -/
theorem upload_pause_iff_uploaded_witness :
    (⟨2, 2, 2, 2⟩ : UploadState).sleeps = (⟨2, 2, 2, 2⟩ : UploadState).uploaded :=
  upload_pause_iff_uploaded
    [⟨"a.txt".toList, .withDocs [some "loc".toList], true⟩,
     ⟨"b.md".toList, .withDocs [some "loc2".toList], true⟩]
    ⟨2, 2, 2, 2⟩ rfl

lemma uploadStep_runOut_bounds (s : UploadState) (f : UploadFile) :
    (runOut (uploadStep s f)).processed = s.processed + 1 ∧
    s.uploaded ≤ (runOut (uploadStep s f)).uploaded ∧
    (runOut (uploadStep s f)).uploaded ≤ s.uploaded + 1 ∧
    s.embedded ≤ (runOut (uploadStep s f)).embedded ∧
    (runOut (uploadStep s f)).embedded ≤ s.embedded + 1 ∧
    (counterInv s → counterInv (runOut (uploadStep s f))) := by
  rcases uploadStep_cases s f with hc | hc | hc | hc <;>
    rw [hc] <;> simp [runOut, counterInv] <;> omega

lemma uploadLoop_runOut_inv :
    ∀ (fs : List UploadFile) (s0 : UploadState), counterInv s0 →
      counterInv (runOut (uploadLoop fs s0)) ∧
      (runOut (uploadLoop fs s0)).processed ≤ s0.processed + fs.length := by
  intro fs
  induction fs with
  | nil =>
    intro s0 h0
    exact ⟨h0, by simp [uploadLoop, runOut]⟩
  | cons f fs ih =>
    intro s0 h0
    rcases uploadStep_runOut_bounds s0 f with ⟨hp, _, _, _, _, hinv⟩
    cases hstep : uploadStep s0 f with
    | error e =>
      rw [hstep] at hp hinv
      simp only [runOut] at hp hinv
      have hl : uploadLoop (f :: fs) s0 = .error e := by
        simp [uploadLoop, hstep]
      rw [hl]
      simp only [runOut]
      exact ⟨hinv h0, by simp; omega⟩
    | ok s' =>
      rw [hstep] at hp hinv
      simp only [runOut] at hp hinv
      have hl : uploadLoop (f :: fs) s0 = uploadLoop fs s' := by
        simp [uploadLoop, hstep]
      rw [hl]
      rcases ih s' (hinv h0) with ⟨h1, h2⟩
      refine ⟨h1, ?_⟩
      simp only [List.length_cons]
      omega

lemma uploadLoop_append (xs ys : List UploadFile) (s : UploadState) :
    uploadLoop (xs ++ ys) s =
      match uploadLoop xs s with
      | .error e => .error e
      | .ok s' => uploadLoop ys s' := by
  induction xs generalizing s with
  | nil => simp [uploadLoop]
  | cons x xs ih =>
    cases h : uploadStep s x with
    | error e => simp [uploadLoop, h]
    | ok s' => simp [uploadLoop, h, ih s']

lemma stateAt_succ (files : List UploadFile) (k : Nat) :
    stateAt files (k + 1) = stateAt files k ∨
      ∃ f, stateAt files (k + 1) = runOut (uploadStep (stateAt files k) f) := by
  unfold stateAt
  rw [List.take_succ, uploadLoop_append]
  cases h : uploadLoop (files.take k) ⟨0, 0, 0, 0⟩ with
  | error e => left; rfl
  | ok s' =>
    cases hf : files[k]? with
    | none =>
      left
      simp [uploadLoop, runOut]
    | some f =>
      right
      refine ⟨f, ?_⟩
      cases hs : uploadStep s' f with
      | error e => simp [uploadLoop, runOut, hs]
      | ok s'' => simp [uploadLoop, runOut, hs]

lemma stateAt_inv (files : List UploadFile) (k : Nat) :
    counterInv (stateAt files k) ∧ (stateAt files k).processed ≤ files.length := by
  rcases uploadLoop_runOut_inv (files.take k) ⟨0, 0, 0, 0⟩ (by simp [counterInv]) with ⟨h1, h2⟩
  unfold stateAt
  refine ⟨h1, ?_⟩
  rw [List.length_take] at h2
  simp only [] at h2
  have hm : k ⊓ files.length ≤ files.length := Nat.min_le_right _ _
  simp at h2
  omega

/-- C10: throughout every run of the upload loop (`stateAt files k` is the
state after the first `k` iterations, also when the run aborted earlier),
the counters satisfy `0 ≤ embedded ≤ uploaded ≤ number of candidate files`,
and both counters are non-decreasing per iteration, each increasing by at
most `1`. -/
theorem upload_counters_invariant (files : List UploadFile) (k : Nat) :
    0 ≤ (stateAt files k).embedded ∧
    (stateAt files k).embedded ≤ (stateAt files k).uploaded ∧
    (stateAt files k).uploaded ≤ files.length ∧
    (stateAt files k).embedded ≤ (stateAt files (k + 1)).embedded ∧
    (stateAt files (k + 1)).embedded ≤ (stateAt files k).embedded + 1 ∧
    (stateAt files k).uploaded ≤ (stateAt files (k + 1)).uploaded ∧
    (stateAt files (k + 1)).uploaded ≤ (stateAt files k).uploaded + 1 := by
  rcases stateAt_inv files k with ⟨⟨hEU, hUP⟩, hPL⟩
  have hstep : (stateAt files k).embedded ≤ (stateAt files (k + 1)).embedded ∧
      (stateAt files (k + 1)).embedded ≤ (stateAt files k).embedded + 1 ∧
      (stateAt files k).uploaded ≤ (stateAt files (k + 1)).uploaded ∧
      (stateAt files (k + 1)).uploaded ≤ (stateAt files k).uploaded + 1 := by
    rcases stateAt_succ files k with he | ⟨f, hf⟩
    · rw [he]
      omega
    · rcases uploadStep_runOut_bounds (stateAt files k) f with ⟨_, h1, h2, h3, h4, _⟩
      rw [hf]
      exact ⟨h3, h4, h1, h2⟩
  exact ⟨Nat.zero_le _, hEU, le_trans hUP hPL,
    hstep.1, hstep.2.1, hstep.2.2.1, hstep.2.2.2⟩

end MediaWikiAnythingLLM
